import Mathlib

/-
Verification of the Session & Streaming Engine of the chat client in
`index.tsx`.  The TypeScript source is shallowly embedded: DOM access and the
network backend are abstracted away, while the state the engine owns
(`chatHistory`, `currentChatId`, `currentChatInstance`), the markdown
renderer, the history directory operations and the `sendMessage` streaming
aggregator are translated function by function.

Session ids in the source are strings `chat_${Date.now()}`; the code only
ever compares them for equality and orders them by
`parseInt(id.split('_')[1])`.  They are embedded as the numeric key `Nat`
(the map `n ↦ "chat_" ++ toString n` is injective, so string equality
coincides with key equality).

Strings are embedded as Lean `String`; JS `substring`/`length` count UTF-16
units, which coincide with code points for all text appearing in the source
and the spec (no surrogate pairs), so they are embedded as operations on
`String.data : List Char`.
-/

/-- Sender of a message: `'user' | 'ai'` in the source. -/
inductive Sender where
  | user
  | ai
deriving DecidableEq, Repr

/-- A grounding citation: `{ web: { uri, title } }` flattened. -/
structure WebGroundingChunk where
  uri : String
  title : String
deriving DecidableEq, Repr

/-- `type Message = { sender; content; sources? }`. -/
structure Message where
  sender : Sender
  content : String
  sources : Option (List WebGroundingChunk) := none
deriving DecidableEq, Repr

/-- The closed category enumeration, keys of `CHAT_CATEGORIES`. -/
inductive ChatCategory where
  | aqeedah        -- 'العقيدة'  (Creed)
  | fiqh           -- 'الفقه'    (Jurisprudence)
  | hadith         -- 'الحديث'   (Tradition)
  | sirah          -- 'السيرة'   (Biography)
  | uncategorized  -- 'uncategorized'
deriving DecidableEq, Repr

/-- Declared key order of the `CHAT_CATEGORIES` object literal. -/
def CHAT_CATEGORIES : List ChatCategory :=
  [.aqeedah, .fiqh, .hadith, .sirah, .uncategorized]

/-- Display labels of `CHAT_CATEGORIES` (values of the object literal). -/
def categoryLabel : ChatCategory → String
  | .aqeedah => "العقيدة"
  | .fiqh => "الفقه"
  | .hadith => "الحديث"
  | .sirah => "السيرة"
  | .uncategorized => "غير مصنف"

/-- `type ChatSession` without the transient `chat : Chat` handle (the
persisted shape `Omit<ChatSession, 'chat'>` used by `chatHistory`).
`id` is the numeric ordering key of the string id `chat_${Date.now()}`. -/
structure ChatSession where
  id : Nat
  title : String
  messages : List Message
  category : ChatCategory
deriving DecidableEq, Repr

/- ------------------------------------------------------------------
Markdown renderer, `markdownToHtml`.

    function markdownToHtml(text: string): string {
        let html = text
          .replace(/\*\*(.*?)\*\*/g, '<strong>$1</strong>');
        html = html.replace(/^\s*[*|-]\s+(.*)/gm, '<li>$1</li>');
        html = html.replace(/(\<\/li\>\n)+<li>/g, '</li><li>');
        html = html.replace(/(<li>.*<\/li>)/s, '<ul>$1</ul>');
        html = html.replace(/^\s*\d+\.\s+(.*)/gm, '<li>$1</li>');
        html = html.replace(/(\<\/li\>\n)+<li>/g, '</li><li>');
        html = html.replace(/(<li>.*<\/li>)/s, '<ol>$1</ol>');
        return html.replace(/\n/g, '<br>');
    }

Each regex pass is translated to an executable pass on `List Char`.
Scanning passes that are not structurally recursive take a fuel argument
(called with `length + 1`, enough since every step consumes one char).
------------------------------------------------------------------ -/

/-- Characters matched by the JS `\s` class that can occur in practice
(space, tab, CR, vertical tab, form feed, NBSP, BOM; `\n` never occurs
inside a line once the text is split on newlines). -/
def jsWs (c : Char) : Bool :=
  c = ' ' || c = '\t' || c = '\r' || c = '\x0b' || c = '\x0c' ||
  c = ' ' || c = '﻿'

/-- Drop a maximal run of `\s` characters. -/
def dropWs : List Char → List Char
  | [] => []
  | c :: rest => if jsWs c then dropWs rest else c :: rest

/-- Split the closing `\*\*` for the lazy `(.*?)` of the bold regex: find the
first `**` in the input with no line terminator before it (JS `.` does not
match `\n`/`\r`), returning the span before it and the remainder after it. -/
def splitClose : List Char → Option (List Char × List Char)
  | c1 :: c2 :: rest =>
    if c1 = '*' ∧ c2 = '*' then some ([], rest)
    else if c1 = '\n' ∨ c1 = '\r' then none
    else (splitClose (c2 :: rest)).map (fun p => (c1 :: p.1, p.2))
  | _ => none

/-- One global pass of `.replace(/\*\*(.*?)\*\*/g, '<strong>$1</strong>')`. -/
def boldGo : Nat → List Char → List Char
  | 0, l => l
  | _ + 1, [] => []
  | fuel + 1, c1 :: rest =>
    match rest with
    | c2 :: rest2 =>
      if c1 = '*' ∧ c2 = '*' then
        match splitClose rest2 with
        | some (mid, suf) =>
          "<strong>".data ++ mid ++ "</strong>".data ++ boldGo fuel suf
        | none => c1 :: boldGo fuel rest
      else c1 :: boldGo fuel rest
    | [] => [c1]

def boldPass (l : List Char) : List Char := boldGo (l.length + 1) l

/-- Split a text into its lines (the segments `^...$` sees under `/m`). -/
def splitLines : List Char → List (List Char)
  | [] => [[]]
  | c :: rest =>
    if c = '\n' then [] :: splitLines rest
    else
      match splitLines rest with
      | [] => [[c]]
      | l :: ls => (c :: l) :: ls

/-- Re-join lines with `\n`. -/
def joinLines : List (List Char) → List Char
  | [] => []
  | [l] => l
  | l :: ls => l ++ '\n' :: joinLines ls

/-- Apply `/^\s*[*|-]\s+(.*)/ → '<li>$1</li>'` to one line. -/
def liLine (line : List Char) : List Char :=
  match dropWs line with
  | m :: rest =>
    if (m = '*' ∨ m = '|' ∨ m = '-') then
      match rest with
      | w :: rest2 =>
        if jsWs w then "<li>".data ++ dropWs rest2 ++ "</li>".data else line
      | [] => line
    else line
  | [] => line

/-- Drop a maximal run of decimal digits, returning it and the remainder. -/
def spanDigits : List Char → List Char × List Char
  | [] => ([], [])
  | c :: rest =>
    if c.isDigit then
      let p := spanDigits rest
      (c :: p.1, p.2)
    else ([], c :: rest)

/-- Apply `/^\s*\d+\.\s+(.*)/ → '<li>$1</li>'` to one line. -/
def numLiLine (line : List Char) : List Char :=
  match spanDigits (dropWs line) with
  | (d :: ds, '.' :: rest) =>
    match rest with
    | w :: rest2 =>
      if jsWs w then
        -- digits consumed, then the dot, then at least one `\s`
        let _ := d :: ds
        "<li>".data ++ dropWs rest2 ++ "</li>".data
      else line
    | [] => line
  | _ => line

/-- Backtracking matcher for `(\<\/li\>\n)+<li>` at the head of the input:
consume as many `</li>\n` repetitions as possible followed by `<li>`,
returning the remainder after the whole match. -/
def eatRepsGo : Nat → List Char → Option (List Char)
  | 0, _ => none
  | fuel + 1, l =>
    if "</li>\n".data.isPrefixOf l then
      let r := l.drop 6
      match eatRepsGo fuel r with
      | some res => some res
      | none => if "<li>".data.isPrefixOf r then some (r.drop 4) else none
    else none

/-- One global pass of `.replace(/(\<\/li\>\n)+<li>/g, '</li><li>')`. -/
def collapseGo : Nat → List Char → List Char
  | 0, l => l
  | _ + 1, [] => []
  | fuel + 1, c :: rest =>
    match eatRepsGo (c :: rest).length (c :: rest) with
    | some rem => "</li><li>".data ++ collapseGo fuel rem
    | none => c :: collapseGo fuel rest

def collapsePass (l : List Char) : List Char := collapseGo (l.length + 1) l

/-- Split before the first occurrence of `pat`, or `none` when absent. -/
def splitFirst (pat : List Char) : List Char → Option (List Char × List Char)
  | [] => if pat = [] then some ([], []) else none
  | c :: rest =>
    if pat.isPrefixOf (c :: rest) then some ([], c :: rest)
    else (splitFirst pat rest).map (fun p => (c :: p.1, p.2))

/-- Split around the last occurrence of `pat`:
`l = pre ++ pat ++ post` for the right-most occurrence. -/
def splitLast (pat : List Char) (l : List Char) :
    Option (List Char × List Char) :=
  match splitFirst pat.reverse l.reverse with
  | none => none
  | some p => some (((p.2.drop pat.length).reverse), p.1.reverse)

/-- One pass of the non-global `.replace(/(<li>.*<\/li>)/s, open ++ '$1' ++
close)`: the leftmost viable start is the first `<li>`, and the greedy
dotall `.*` extends the match to the last `</li>` in the text. -/
def wrapFirstTag (openTag closeTag : List Char) (l : List Char) : List Char :=
  match splitFirst "<li>".data l with
  | none => l
  | some (pre, suf) =>
    -- suf = "<li>" ++ body
    let body := suf.drop 4
    match splitLast "</li>".data body with
    | none => l
    | some (mid, post) =>
      pre ++ openTag ++ "<li>".data ++ mid ++ "</li>".data ++ closeTag ++ post

/-- Final pass `.replace(/\n/g, '<br>')`. -/
def brPass (l : List Char) : List Char :=
  l.flatMap fun c => if c = '\n' then "<br>".data else [c]

/-- `markdownToHtml`, the whole fixed pass pipeline. -/
def markdownToHtml (s : String) : String :=
  let h1 := boldPass s.data
  let h2 := joinLines ((splitLines h1).map liLine)
  let h3 := collapsePass h2
  let h4 := wrapFirstTag "<ul>".data "</ul>".data h3
  let h5 := joinLines ((splitLines h4).map numLiLine)
  let h6 := collapsePass h5
  let h7 := wrapFirstTag "<ol>".data "</ol>".data h6
  String.mk (brPass h7)

/-- Count the occurrences of `pat` in `s` (used to count list wrappers). -/
def countOccGo (pat : List Char) : Nat → List Char → Nat
  | 0, _ => 0
  | _ + 1, [] => 0
  | fuel + 1, c :: rest =>
    (if pat.isPrefixOf (c :: rest) then 1 else 0) + countOccGo pat fuel rest

def countOcc (pat : String) (s : String) : Nat :=
  countOccGo pat.data (s.data.length + 1) s.data

/- ------------------------------------------------------------------
Generic list helpers used by the embedding (index update, first removal,
index search, stable descending sort — the latter models the stable
`Array.prototype.sort((a, b) => keyb - keya)` of the source).
------------------------------------------------------------------ -/

/-- In-place update of the element at index `i` (`chatHistory[i] = ...`). -/
def updateAt (l : List ChatSession) (i : Nat) (f : ChatSession → ChatSession) :
    List ChatSession :=
  match l, i with
  | [], _ => []
  | x :: xs, 0 => f x :: xs
  | x :: xs, n + 1 => x :: updateAt xs n f

/-- `findIndex` followed by `splice(idx, 1)`: remove the first session with
the given id (identity when absent). -/
def removeFirst : List ChatSession → Nat → List ChatSession
  | [], _ => []
  | s :: rest, t => if s.id = t then rest else s :: removeFirst rest t

/-- `Array.prototype.findIndex`. -/
def findIndex (p : ChatSession → Bool) : List ChatSession → Option Nat
  | [] => none
  | s :: rest => if p s then some 0 else (findIndex p rest).map (· + 1)

/-- `chatHistory.find(s => s.id === id) !== undefined`. -/
def hasId (l : List ChatSession) (t : Nat) : Bool :=
  l.any fun s => s.id == t

/-- Stable insertion for descending sort by id key: a new element goes after
all elements whose key is at least its own (ties keep original order, as in
the stable JS sort). -/
def insertDesc (x : ChatSession) : List ChatSession → List ChatSession
  | [] => [x]
  | y :: ys => if x.id ≤ y.id then y :: insertDesc x ys else x :: y :: ys

/-- `slice().sort((a, b) => parseInt(b.id...) - parseInt(a.id...))`:
stable sort by descending id key. -/
def sortDesc (l : List ChatSession) : List ChatSession :=
  l.foldl (fun acc x => insertDesc x acc) []

/-- `sorted[0]` of the descending sort: the most recent session. -/
def mostRecentChat (l : List ChatSession) : Option ChatSession :=
  (sortDesc l).head?

/- ------------------------------------------------------------------
Application state and the Session Directory operations
(`loadChat`, `createNewChat`, `handleDeleteChat`, `loadHistory`).
`hasChatInstance` records whether `currentChatInstance` is non-null; the
opaque backend handle itself carries no state the engine reads.
`saveHistory` writes the whole collection to storage; persistence is a
projection of `chatHistory`, so it needs no separate state component.
------------------------------------------------------------------ -/

structure AppState where
  chatHistory : List ChatSession
  currentChatId : Option Nat
  hasChatInstance : Bool
deriving DecidableEq, Repr

/-- `loadChat(id)`: select the session when present, else do nothing
(`if (!session) return`); selecting recreates the backend handle. -/
def loadChat (st : AppState) (t : Nat) : AppState :=
  if hasId st.chatHistory t then
    { st with currentChatId := some t, hasChatInstance := true }
  else st

/-- The fresh session literal of `createNewChat` (empty, placeholder title,
uncategorized). -/
def newChatSession (freshId : Nat) : ChatSession :=
  { id := freshId, title := "محادثة جديدة", messages := [],
    category := .uncategorized }

/-- `createNewChat()`: push a fresh session, save, and load it.  The fresh
id `Date.now()` is passed explicitly. -/
def createNewChat (st : AppState) (freshId : Nat) : AppState :=
  loadChat { st with chatHistory := st.chatHistory ++ [newChatSession freshId] }
    freshId

/-- `handleDeleteChat` with the modal bookkeeping stripped: delete the
session `t` (no-op when absent); when it was current, load the most recent
remaining session, or create a fresh one (`freshId`) when none remain. -/
def handleDeleteChat (st : AppState) (t freshId : Nat) : AppState :=
  if hasId st.chatHistory t then
    let wasCurrent := st.currentChatId = some t
    let h := removeFirst st.chatHistory t
    let st1 : AppState := { st with chatHistory := h }
    if wasCurrent then
      match mostRecentChat h with
      | some m => loadChat st1 m.id
      | none => createNewChat st1 freshId
    else st1
  else st

/-- A stored record, before migration: the `category` field may be absent. -/
structure StoredSession where
  id : Nat
  title : String
  messages : List Message
  category : Option ChatCategory
deriving DecidableEq, Repr

/-- The migration step `{...session, category: session.category ||
'uncategorized'}` applied to one record. -/
def migrateSession (s : StoredSession) : ChatSession :=
  { id := s.id, title := s.title, messages := s.messages,
    category := s.category.getD .uncategorized }

/-- `parsedHistory.map(...)`: the whole-collection migration on load. -/
def migrate (l : List StoredSession) : List ChatSession :=
  l.map migrateSession

/-- `loadHistory()`: read the stored collection (or `none` when the storage
key is absent), migrate it, and select the first session — or create a
fresh one when nothing is stored or the stored collection is empty. -/
def loadHistory (stored : Option (List StoredSession)) (freshId : Nat) :
    AppState :=
  match stored with
  | some l =>
    match migrate l with
    | [] => createNewChat { chatHistory := migrate l, currentChatId := none,
                            hasChatInstance := false } freshId
    | s :: _ => loadChat { chatHistory := migrate l, currentChatId := none,
                           hasChatInstance := false } s.id
  | none => createNewChat { chatHistory := [], currentChatId := none,
                            hasChatInstance := false } freshId

/-- A directory operation: the user-triggered `createNewChat`,
`handleDeleteChat` or `loadChat` calls.  Fresh ids (`Date.now()`) are
carried by the operation. -/
inductive DirOp where
  | create (freshId : Nat)
  | delete (target freshId : Nat)
  | select (target : Nat)
deriving DecidableEq, Repr

def stepOp (st : AppState) : DirOp → AppState
  | .create fid => createNewChat st fid
  | .delete t fid => handleDeleteChat st t fid
  | .select t => loadChat st t

/- ------------------------------------------------------------------
History grouping (`renderHistory`): group by category in first-appearance
order (JS object insertion order under `Object.entries`), each group sorted
by descending id key.
------------------------------------------------------------------ -/

/-- One step of the `reduce` that builds `groupedByCategory`: append the
session to its category's bucket, creating the bucket at the end on first
appearance. -/
def addToGroups (acc : List (ChatCategory × List ChatSession))
    (s : ChatSession) : List (ChatCategory × List ChatSession) :=
  if acc.any (fun g => g.1 = s.category) then
    acc.map fun g => if g.1 = s.category then (g.1, g.2 ++ [s]) else g
  else acc ++ [(s.category, [s])]

/-- The grouped, per-group descending-sorted view `renderHistory` iterates:
`Object.entries(groupedByCategory)` with each bucket sorted. -/
def listGrouped (h : List ChatSession) :
    List (ChatCategory × List ChatSession) :=
  (h.foldl addToGroups []).map fun g => (g.1, sortDesc g.2)

/-- First-occurrence deduplication of a category list: the key insertion
order of the `reduce` accumulator object. -/
def dedupFirst (l : List ChatCategory) : List ChatCategory :=
  l.foldl (fun acc c => if c ∈ acc then acc else acc ++ [c]) []

/-- Specification view of the grouping: buckets keyed by the categories in
first-appearance order, each holding the matching sessions in input order. -/
def groupsOf (h : List ChatSession) :
    List (ChatCategory × List ChatSession) :=
  (dedupFirst (h.map fun s => s.category)).map
    fun c => (c, h.filter fun s => s.category = c)

/-- Boolean order-preserving-subsequence check, used to state "the groups
are iterated in the declared category order". -/
def isOrderedSub : List ChatCategory → List ChatCategory → Bool
  | [], _ => true
  | _ :: _, [] => false
  | a :: as, b :: bs =>
    if a = b then isOrderedSub as bs else isOrderedSub (a :: as) bs

/- ------------------------------------------------------------------
The Streaming Aggregator: `sendMessage`.

The call has a synchronous phase (guards, committing the user message,
title inference, saving, showing the placeholder) that runs before the
backend channel is awaited, and a completion phase driven by the stream.
The backend is opaque: a `StreamOutcome` records the deltas delivered in
arrival order, the grounding metadata on the final chunk, and whether the
channel ended in an error (after those deltas) instead of closing normally.
------------------------------------------------------------------ -/

structure StreamOutcome where
  deltas : List String
  sources : Option (List WebGroundingChunk)
  errors : Bool
deriving DecidableEq, Repr

/-- `{ sender: 'user', content: userMessage }`. -/
def userMsg (m : String) : Message :=
  { sender := .user, content := m, sources := none }

/-- `{ sender: 'ai', content: fullResponseText, sources: groundingChunks }`. -/
def aiMsg (content : String) (srcs : Option (List WebGroundingChunk)) :
    Message :=
  { sender := .ai, content := content, sources := srcs }

/-- `chatHistory[i].messages.push({ sender: 'user', content: userMessage })`. -/
def pushUserMsg (m : String) (s : ChatSession) : ChatSession :=
  { s with messages := s.messages ++ [userMsg m] }

/-- Title inference: `userMessage.substring(0, 30) + (userMessage.length >
30 ? '...' : '')` (UTF-16 units = code points for the text involved). -/
def inferTitle (m : String) : String :=
  String.mk (m.data.take 30) ++ (if m.data.length > 30 then "..." else "")

/-- `if (messages.length === 1) title = inferTitle(userMessage)` — the
title rule applied right after the user message was pushed. -/
def applyTitleRule (m : String) (s : ChatSession) : ChatSession :=
  if s.messages.length = 1 then { s with title := inferTitle m } else s

/-- The synchronous phase of `sendMessage`: the guards
(`!currentChatId || !currentChatInstance`, `findIndex === -1`), then the
user-message commit and title inference.  Returns the updated state and the
captured session index, or `none` when a guard returned early. -/
def sendMessageSyncPhase (st : AppState) (m : String) :
    Option (AppState × Nat) :=
  match st.currentChatId, st.hasChatInstance with
  | some cid, true =>
    match findIndex (fun s => s.id == cid) st.chatHistory with
    | some i =>
      let h1 := updateAt st.chatHistory i (pushUserMsg m)
      let h2 := updateAt h1 i (applyTitleRule m)
      some ({ st with chatHistory := h2 }, i)
    | none => none
  | _, _ => none

/-- `fullResponseText`: the accumulated buffer, `+=` over the deltas in
arrival order. -/
def streamBuffer (o : StreamOutcome) : String :=
  o.deltas.foldl (· ++ ·) ""

/-- The fixed localized error text rendered in the `catch` branch. -/
def streamErrText : String :=
  "**عذراً، حدث خطأ أثناء محاولة الحصول على إجابة. يرجى المحاولة مرة أخرى.**"

/-- Observable result of a `sendMessage` call: the final state, whether a
backend channel was opened, how many times `saveHistory` ran, the markup
shown in place of the placeholder on failure, and whether an assistant
message was committed. -/
structure SendEffects where
  state : AppState
  streamOpened : Bool
  saveCount : Nat
  errorHtml : Option String
  committed : Bool
deriving DecidableEq, Repr

/-- The stream-driven rest of `sendMessage` (the `try`/`catch` around the
`for await` loop), running from the post-sync state with the captured
session index: commit the buffer as one assistant message only when the
channel closed normally and the buffer is non-empty; on error render the
fixed message and commit nothing.  `saveCount` includes the save of the
synchronous phase. -/
def sendMessageFinishPhase (st : AppState) (i : Nat) (o : StreamOutcome) :
    SendEffects :=
  if o.errors then
    { state := st, streamOpened := true, saveCount := 1,
      errorHtml := some (markdownToHtml streamErrText), committed := false }
  else if streamBuffer o = "" then
    { state := st, streamOpened := true, saveCount := 1,
      errorHtml := none, committed := false }
  else
    let pushAi : ChatSession → ChatSession := fun s =>
      { s with messages := s.messages ++ [aiMsg (streamBuffer o) o.sources] }
    { state := { st with chatHistory := updateAt st.chatHistory i pushAi },
      streamOpened := true, saveCount := 2,
      errorHtml := none, committed := true }

/-- A whole `sendMessage(userMessage)` call against a backend behaving as
`o`. -/
def sendMessage (st : AppState) (m : String) (o : StreamOutcome) :
    SendEffects :=
  match sendMessageSyncPhase st m with
  | none =>
    { state := st, streamOpened := false, saveCount := 0,
      errorHtml := none, committed := false }
  | some (st1, i) => sendMessageFinishPhase st1 i o

/-- Two `sendMessage` calls in immediate succession on the single JS
thread: both synchronous phases run (each up to its `await`), then the two
streams complete in order.  When the second synchronous phase is cut short
by a guard only the first call's stream completes. -/
def twoCallsInterleaved (st : AppState) (m1 m2 : String)
    (o1 o2 : StreamOutcome) : AppState :=
  match sendMessageSyncPhase st m1 with
  | none => st
  | some (st1, i1) =>
    match sendMessageSyncPhase st1 m2 with
    | none => (sendMessageFinishPhase st1 i1 o1).state
    | some (st2, i2) =>
      (sendMessageFinishPhase (sendMessageFinishPhase st2 i1 o1).state
        i2 o2).state

/- ------------------------------------------------------------------
Concrete states and outcomes used by the witnesses and counterexamples.
------------------------------------------------------------------ -/

/-- A freshly created, selected, empty session — the state right after
`createNewChat`. -/
def exSt : AppState :=
  { chatHistory := [newChatSession 1], currentChatId := some 1,
    hasChatInstance := true }

/-- The state after the synchronous phase of `sendMessage(exSt, "سؤال")`. -/
def exSt1 : AppState :=
  { chatHistory :=
      [{ id := 1, title := "سؤال", messages := [userMsg "سؤال"],
         category := .uncategorized }],
    currentChatId := some 1, hasChatInstance := true }

/-- The spec's simulated stream: deltas then a normal close. -/
def exStreamOk : StreamOutcome :=
  { deltas := ["اللهم", " صل", " وسلم"], sources := none, errors := false }

/-- A stream that yields zero deltas and then errors. -/
def exStreamErr : StreamOutcome :=
  { deltas := [], sources := none, errors := true }

/-- A state whose current id points at no session in the collection. -/
def exStDangling : AppState :=
  { chatHistory := [newChatSession 1], currentChatId := some 99,
    hasChatInstance := true }

/-- Successful one-delta streams for the double-call scenario. -/
def exStreamA : StreamOutcome :=
  { deltas := ["جواب أول"], sources := none, errors := false }

def exStreamB : StreamOutcome :=
  { deltas := ["جواب ثان"], sources := none, errors := false }

/-- Sessions driving the grouping counterexample: the Jurisprudence
session appears first in the collection, the Creed session second. -/
def exGroupHistory : List ChatSession :=
  [{ id := 2, title := "أ", messages := [], category := .fiqh },
   { id := 1, title := "ب", messages := [], category := .aqeedah }]

/-- A two-session state whose current session is the older one. -/
def exStTwo : AppState :=
  { chatHistory :=
      [{ id := 5, title := "أ", messages := [], category := .uncategorized },
       { id := 9, title := "ب", messages := [], category := .uncategorized }],
    currentChatId := some 5, hasChatInstance := true }

/-- A stored collection with one record lacking `category`. -/
def exStored : List StoredSession :=
  [{ id := 3, title := "قديمة", messages := [userMsg "س"], category := none },
   { id := 4, title := "حديثة", messages := [], category := some .fiqh }]

/- ------------------------------------------------------------------
Helper lemmas: updateAt.
------------------------------------------------------------------ -/

theorem updateAt_get?_self (l : List ChatSession) (i : Nat)
    (f : ChatSession → ChatSession) :
    (updateAt l i f).get? i = (l.get? i).map f := by
  induction l generalizing i with
  | nil => cases i <;> rfl
  | cons x xs ih =>
    cases i with
    | zero => rfl
    | succ n => simpa [updateAt] using ih n

theorem updateAt_updateAt (l : List ChatSession) (i : Nat)
    (f g : ChatSession → ChatSession) :
    updateAt (updateAt l i f) i g = updateAt l i (fun x => g (f x)) := by
  induction l generalizing i with
  | nil => cases i <;> rfl
  | cons x xs ih =>
    cases i with
    | zero => rfl
    | succ n => simpa [updateAt] using ih n

/- ------------------------------------------------------------------
Helper lemmas: the synchronous phase of `sendMessage`.
------------------------------------------------------------------ -/

theorem applyTitleRule_messages (m : String) (s : ChatSession) :
    (applyTitleRule m s).messages = s.messages := by
  unfold applyTitleRule; split <;> rfl

theorem syncPhase_spec (st : AppState) (m : String) (st1 : AppState)
    (i : Nat) (h : sendMessageSyncPhase st m = some (st1, i)) :
    st1.chatHistory =
      updateAt st.chatHistory i (fun s => applyTitleRule m (pushUserMsg m s)) ∧
    st1.currentChatId = st.currentChatId ∧
    st1.hasChatInstance = st.hasChatInstance := by
  unfold sendMessageSyncPhase at h
  split at h
  · split at h
    · cases h
      refine ⟨?_, rfl, rfl⟩
      exact updateAt_updateAt ..
    · cases h
  · cases h

theorem syncPhase_session (st : AppState) (m : String) (st1 : AppState)
    (i : Nat) (s0 : ChatSession)
    (h : sendMessageSyncPhase st m = some (st1, i))
    (hs0 : st.chatHistory.get? i = some s0) :
    st1.chatHistory.get? i = some (applyTitleRule m (pushUserMsg m s0)) := by
  obtain ⟨hh, -, -⟩ := syncPhase_spec st m st1 i h
  rw [hh, updateAt_get?_self, hs0]
  rfl

theorem syncPhase_messages (st : AppState) (m : String) (st1 : AppState)
    (i : Nat) (s0 : ChatSession)
    (h : sendMessageSyncPhase st m = some (st1, i))
    (hs0 : st.chatHistory.get? i = some s0) :
    ∃ s1, st1.chatHistory.get? i = some s1 ∧
      s1.messages = s0.messages ++ [userMsg m] := by
  refine ⟨_, syncPhase_session st m st1 i s0 h hs0, ?_⟩
  rw [applyTitleRule_messages]
  rfl

theorem applyTitleRule_pushUser_title (m : String) (s0 : ChatSession) :
    (applyTitleRule m (pushUserMsg m s0)).title =
      if s0.messages = [] then inferTitle m else s0.title := by
  by_cases h : s0.messages = [] <;>
    simp [applyTitleRule, pushUserMsg, h, List.length_eq_zero]

theorem sendMessage_eq_finish (st : AppState) (m : String)
    (o : StreamOutcome) (st1 : AppState) (i : Nat)
    (h : sendMessageSyncPhase st m = some (st1, i)) :
    sendMessage st m o = sendMessageFinishPhase st1 i o := by
  unfold sendMessage
  rw [h]


/-- `pushAiMsg o` is the session update of the commit step. -/
def pushAiMsg (o : StreamOutcome) (s : ChatSession) : ChatSession :=
  { s with messages := s.messages ++ [aiMsg (streamBuffer o) o.sources] }

theorem finishPhase_err (st1 : AppState) (i : Nat) (o : StreamOutcome)
    (herr : o.errors = true) :
    sendMessageFinishPhase st1 i o =
      { state := st1, streamOpened := true, saveCount := 1,
        errorHtml := some (markdownToHtml streamErrText),
        committed := false } := by
  simp [sendMessageFinishPhase, herr]

theorem finishPhase_empty (st1 : AppState) (i : Nat) (o : StreamOutcome)
    (hok : o.errors = false) (hb : streamBuffer o = "") :
    sendMessageFinishPhase st1 i o =
      { state := st1, streamOpened := true, saveCount := 1,
        errorHtml := none, committed := false } := by
  simp [sendMessageFinishPhase, hok, hb]

theorem finishPhase_commit (st1 : AppState) (i : Nat) (o : StreamOutcome)
    (hok : o.errors = false) (hb : streamBuffer o ≠ "") :
    sendMessageFinishPhase st1 i o =
      { state := { st1 with
          chatHistory := updateAt st1.chatHistory i (pushAiMsg o) },
        streamOpened := true, saveCount := 2,
        errorHtml := none, committed := true } := by
  simp only [sendMessageFinishPhase, hok, Bool.false_eq_true, if_false,
    if_neg hb]
  rfl

theorem finishPhase_title (st1 : AppState) (i : Nat) (o : StreamOutcome)
    (s1 : ChatSession) (hs1 : st1.chatHistory.get? i = some s1) :
    ∃ s2, (sendMessageFinishPhase st1 i o).state.chatHistory.get? i =
        some s2 ∧ s2.title = s1.title := by
  by_cases he : o.errors = true
  · rw [finishPhase_err st1 i o he]
    exact ⟨s1, hs1, rfl⟩
  · rw [Bool.not_eq_true] at he
    by_cases hb : streamBuffer o = ""
    · rw [finishPhase_empty st1 i o he hb]
      exact ⟨s1, hs1, rfl⟩
    · rw [finishPhase_commit st1 i o he hb]
      refine ⟨pushAiMsg o s1, ?_, rfl⟩
      show (updateAt st1.chatHistory i (pushAiMsg o)).get? i = _
      rw [updateAt_get?_self, hs1]
      rfl

/-- C1: a `sendMessage` call whose stream closes normally commits, when the
accumulated buffer is non-empty, exactly one assistant message whose
content is the concatenation of the deltas in arrival order, appended after
the user message that was already committed in the synchronous phase; when
the buffer is empty no assistant message is committed. -/
theorem C1_streaming_commit (st : AppState) (m : String) (o : StreamOutcome)
    (st1 : AppState) (i : Nat) (s0 : ChatSession)
    (hok : o.errors = false)
    (hsync : sendMessageSyncPhase st m = some (st1, i))
    (hs0 : st.chatHistory.get? i = some s0) :
    (∃ s1, st1.chatHistory.get? i = some s1 ∧
       s1.messages = s0.messages ++ [userMsg m]) ∧
    (streamBuffer o ≠ "" →
       (sendMessage st m o).committed = true ∧
       ∃ s2, (sendMessage st m o).state.chatHistory.get? i = some s2 ∧
         s2.messages =
           s0.messages ++ [userMsg m, aiMsg (streamBuffer o) o.sources]) ∧
    (streamBuffer o = "" →
       (sendMessage st m o).committed = false ∧
       ∃ s2, (sendMessage st m o).state.chatHistory.get? i = some s2 ∧
         s2.messages = s0.messages ++ [userMsg m]) := by
  obtain ⟨s1, hs1, hs1m⟩ := syncPhase_messages st m st1 i s0 hsync hs0
  rw [sendMessage_eq_finish st m o st1 i hsync]
  refine ⟨⟨s1, hs1, hs1m⟩, ?_, ?_⟩
  · intro hb
    rw [finishPhase_commit st1 i o hok hb]
    refine ⟨rfl, pushAiMsg o s1, ?_, ?_⟩
    · show (updateAt st1.chatHistory i (pushAiMsg o)).get? i = _
      rw [updateAt_get?_self, hs1]
      rfl
    · show s1.messages ++ [aiMsg (streamBuffer o) o.sources] = _
      rw [hs1m, List.append_assoc]
      rfl
  · intro hb
    rw [finishPhase_empty st1 i o hok hb]
    exact ⟨rfl, s1, hs1, hs1m⟩

/-- C1 witness: the spec's simulated stream against a fresh session. -/
theorem C1_witness :
    streamBuffer exStreamOk = "اللهم صل وسلم" ∧
    ((∃ s1, exSt1.chatHistory.get? 0 = some s1 ∧
        s1.messages = (newChatSession 1).messages ++ [userMsg "سؤال"]) ∧
     (streamBuffer exStreamOk ≠ "" →
        (sendMessage exSt "سؤال" exStreamOk).committed = true ∧
        ∃ s2, (sendMessage exSt "سؤال" exStreamOk).state.chatHistory.get? 0 =
            some s2 ∧
          s2.messages = (newChatSession 1).messages ++
            [userMsg "سؤال",
             aiMsg (streamBuffer exStreamOk) exStreamOk.sources]) ∧
     (streamBuffer exStreamOk = "" →
        (sendMessage exSt "سؤال" exStreamOk).committed = false ∧
        ∃ s2, (sendMessage exSt "سؤال" exStreamOk).state.chatHistory.get? 0 =
            some s2 ∧
          s2.messages = (newChatSession 1).messages ++ [userMsg "سؤال"])) :=
  ⟨by decide,
   C1_streaming_commit exSt "سؤال" exStreamOk exSt1 0 (newChatSession 1)
     rfl (by decide) rfl⟩

/-- C3: when the stream errors with an empty buffer, no assistant message
is committed, the fixed localized error markup is rendered, and the user
message of the call stays committed, so the list grows by exactly one. -/
theorem C3_stream_error_no_commit (st : AppState) (m : String)
    (o : StreamOutcome) (st1 : AppState) (i : Nat) (s0 : ChatSession)
    (herr : o.errors = true) (_hd : o.deltas = [])
    (hsync : sendMessageSyncPhase st m = some (st1, i))
    (hs0 : st.chatHistory.get? i = some s0) :
    (sendMessage st m o).committed = false ∧
    (sendMessage st m o).errorHtml = some (markdownToHtml streamErrText) ∧
    ∃ s2, (sendMessage st m o).state.chatHistory.get? i = some s2 ∧
      s2.messages = s0.messages ++ [userMsg m] ∧
      s2.messages.length = s0.messages.length + 1 := by
  obtain ⟨s1, hs1, hs1m⟩ := syncPhase_messages st m st1 i s0 hsync hs0
  rw [sendMessage_eq_finish st m o st1 i hsync,
      finishPhase_err st1 i o herr]
  refine ⟨rfl, rfl, s1, hs1, hs1m, ?_⟩
  rw [hs1m]
  simp

/-- C3 witness: a zero-delta erroring stream against a fresh session. -/
theorem C3_witness :
    exStreamErr.errors = true ∧ exStreamErr.deltas = [] ∧
    ((sendMessage exSt "سؤال" exStreamErr).committed = false ∧
     (sendMessage exSt "سؤال" exStreamErr).errorHtml =
       some (markdownToHtml streamErrText) ∧
     ∃ s2, (sendMessage exSt "سؤال" exStreamErr).state.chatHistory.get? 0 =
         some s2 ∧
       s2.messages = (newChatSession 1).messages ++ [userMsg "سؤال"] ∧
       s2.messages.length = (newChatSession 1).messages.length + 1) :=
  ⟨rfl, rfl,
   C3_stream_error_no_commit exSt "سؤال" exStreamErr exSt1 0
     (newChatSession 1) rfl rfl (by decide) rfl⟩

/-- C9: the title is set exactly when the session's message count goes from
0 to 1, to the first 30 characters of the message with an ellipsis appended
precisely when the message is longer than 30 characters. -/
theorem C9_title_rule (st : AppState) (m : String) (o : StreamOutcome)
    (st1 : AppState) (i : Nat) (s0 : ChatSession)
    (hsync : sendMessageSyncPhase st m = some (st1, i))
    (hs0 : st.chatHistory.get? i = some s0) :
    (∃ s2, (sendMessage st m o).state.chatHistory.get? i = some s2 ∧
       s2.title = if s0.messages = [] then inferTitle m else s0.title) ∧
    (m.data.length > 30 →
       inferTitle m = String.mk (m.data.take 30) ++ "...") ∧
    (m.data.length ≤ 30 → inferTitle m = m) := by
  have hsess := syncPhase_session st m st1 i s0 hsync hs0
  rw [sendMessage_eq_finish st m o st1 i hsync]
  obtain ⟨s2, hs2, hs2t⟩ := finishPhase_title st1 i o _ hsess
  refine ⟨⟨s2, hs2, ?_⟩, ?_, ?_⟩
  · rw [hs2t, applyTitleRule_pushUser_title]
  · intro hlong
    unfold inferTitle
    rw [if_pos hlong]
  · intro hshort
    unfold inferTitle
    rw [if_neg (by omega), List.take_of_length_le hshort]
    cases m
    simp

/-- A 40-character and a 10-character first message, for the C9 witness. -/
def exMsg40 : String := String.mk (List.replicate 40 'م')

def exMsg10 : String := String.mk (List.replicate 10 'م')

/-- State after the synchronous phase of `sendMessage(exSt, exMsg40)`. -/
def exSt40 : AppState :=
  { chatHistory :=
      [{ id := 1, title := inferTitle exMsg40,
         messages := [userMsg exMsg40], category := .uncategorized }],
    currentChatId := some 1, hasChatInstance := true }

/-- State after the synchronous phase of `sendMessage(exSt, exMsg10)`. -/
def exSt10 : AppState :=
  { chatHistory :=
      [{ id := 1, title := inferTitle exMsg10,
         messages := [userMsg exMsg10], category := .uncategorized }],
    currentChatId := some 1, hasChatInstance := true }

/-- C9 witness: the 40-character message is truncated to 30 characters plus
an ellipsis, the 10-character one is kept whole, and the fresh session's
title is set on the 0-to-1 transition. -/
theorem C9_witness :
    (∃ s2, (sendMessage exSt exMsg40 exStreamOk).state.chatHistory.get? 0 =
        some s2 ∧
      s2.title = if (newChatSession 1).messages = [] then inferTitle exMsg40
        else (newChatSession 1).title) ∧
    inferTitle exMsg40 = String.mk (exMsg40.data.take 30) ++ "..." ∧
    inferTitle exMsg10 = exMsg10 := by
  have h40 := C9_title_rule exSt exMsg40 exStreamOk exSt40 0
    (newChatSession 1) (by decide) rfl
  have h10 := C9_title_rule exSt exMsg10 exStreamOk exSt10 0
    (newChatSession 1) (by decide) rfl
  exact ⟨h40.1, h40.2.1 (by decide), h10.2.2 (by decide)⟩

theorem findIndex_eq_none (p : ChatSession → Bool) (l : List ChatSession)
    (h : ∀ s ∈ l, p s = false) : findIndex p l = none := by
  induction l with
  | nil => rfl
  | cons x xs ih =>
    unfold findIndex
    rw [h x (by simp), ih fun s hs => h s (by simp [hs])]
    rfl

/-- C10: a `sendMessage` call while no session is current — the current id
is null or names no session in the collection — is a complete no-op: no
user message is appended, no stream is opened, nothing is saved, no error
is rendered. -/
theorem C10_no_current_noop (st : AppState) (m : String) (o : StreamOutcome)
    (h : st.currentChatId = none ∨
      ∃ cid, st.currentChatId = some cid ∧
        ∀ s ∈ st.chatHistory, s.id ≠ cid) :
    sendMessage st m o =
      { state := st, streamOpened := false, saveCount := 0,
        errorHtml := none, committed := false } := by
  have hsync : sendMessageSyncPhase st m = none := by
    unfold sendMessageSyncPhase
    rcases h with hnone | ⟨cid, hcid, habs⟩
    · rw [hnone]
    · rw [hcid]
      cases hb : st.hasChatInstance
      · rfl
      · have hfi : findIndex (fun s => s.id == cid) st.chatHistory = none := by
          apply findIndex_eq_none
          intro s hs
          simpa using habs s hs
        simp [hfi]
  unfold sendMessage
  rw [hsync]

/-- C10 witness: a state whose current id names no session. -/
theorem C10_witness :
    (exStDangling.currentChatId = none ∨
      ∃ cid, exStDangling.currentChatId = some cid ∧
        ∀ s ∈ exStDangling.chatHistory, s.id ≠ cid) ∧
    sendMessage exStDangling "سؤال" exStreamOk =
      { state := exStDangling, streamOpened := false, saveCount := 0,
        errorHtml := none, committed := false } :=
  ⟨Or.inr ⟨99, rfl, by decide⟩,
   C10_no_current_noop exStDangling "سؤال" exStreamOk
     (Or.inr ⟨99, rfl, by decide⟩)⟩

/-- State after the synchronous phase of the first of two back-to-back
calls. -/
def exStB1 : AppState :=
  { chatHistory :=
      [{ id := 1, title := "سؤال أول", messages := [userMsg "سؤال أول"],
         category := .uncategorized }],
    currentChatId := some 1, hasChatInstance := true }

/-- State after the synchronous phase of the second call (run while the
first stream is still outstanding). -/
def exStB2 : AppState :=
  { chatHistory :=
      [{ id := 1, title := "سؤال أول",
         messages := [userMsg "سؤال أول", userMsg "سؤال ثان"],
         category := .uncategorized }],
    currentChatId := some 1, hasChatInstance := true }

/-- C2 (amended): a second `sendMessage` call issued while the first call's
stream is outstanding is not rejected — there is no busy guard — and it
does change state: it appends its own user message, and when both streams
close normally with non-empty buffers each call commits its own assistant
message, so two assistant messages are committed, one per call. -/
theorem C2_second_call_not_rejected (st : AppState) (m1 m2 : String)
    (o1 o2 : StreamOutcome) (st1 st2 : AppState) (i : Nat)
    (s0 : ChatSession)
    (h1 : sendMessageSyncPhase st m1 = some (st1, i))
    (h2 : sendMessageSyncPhase st1 m2 = some (st2, i))
    (hs0 : st.chatHistory.get? i = some s0)
    (he1 : o1.errors = false) (he2 : o2.errors = false)
    (hb1 : streamBuffer o1 ≠ "") (hb2 : streamBuffer o2 ≠ "") :
    st2 ≠ st1 ∧
    ∃ s4, (twoCallsInterleaved st m1 m2 o1 o2).chatHistory.get? i =
        some s4 ∧
      s4.messages = s0.messages ++
        [userMsg m1, userMsg m2, aiMsg (streamBuffer o1) o1.sources,
         aiMsg (streamBuffer o2) o2.sources] := by
  obtain ⟨s1, hs1, hs1m⟩ := syncPhase_messages st m1 st1 i s0 h1 hs0
  obtain ⟨s2, hs2, hs2m⟩ := syncPhase_messages st1 m2 st2 i s1 h2 hs1
  constructor
  · intro heq
    rw [heq] at hs2
    have hss : s1 = s2 := Option.some.inj (hs1.symm.trans hs2)
    rw [← hss] at hs2m
    have hlen := congrArg List.length hs2m
    simp at hlen
  · simp only [twoCallsInterleaved, h1, h2]
    rw [finishPhase_commit st2 i o1 he1 hb1]
    rw [finishPhase_commit _ i o2 he2 hb2]
    refine ⟨pushAiMsg o2 (pushAiMsg o1 s2), ?_, ?_⟩
    · show (updateAt (updateAt st2.chatHistory i (pushAiMsg o1)) i
        (pushAiMsg o2)).get? i = _
      rw [updateAt_updateAt, updateAt_get?_self, hs2]
      rfl
    · show (pushAiMsg o2 (pushAiMsg o1 s2)).messages = _
      simp [pushAiMsg, hs2m, hs1m]

/-- C2 witness for the amended claim: two concrete back-to-back calls. -/
theorem C2_witness :
    exStB2 ≠ exStB1 ∧
    ∃ s4, (twoCallsInterleaved exSt "سؤال أول" "سؤال ثان" exStreamA
        exStreamB).chatHistory.get? 0 = some s4 ∧
      s4.messages = (newChatSession 1).messages ++
        [userMsg "سؤال أول", userMsg "سؤال ثان",
         aiMsg (streamBuffer exStreamA) exStreamA.sources,
         aiMsg (streamBuffer exStreamB) exStreamB.sources] :=
  C2_second_call_not_rejected exSt "سؤال أول" "سؤال ثان" exStreamA exStreamB
    exStB1 exStB2 0 (newChatSession 1) (by decide) (by decide) rfl rfl rfl
    (by decide) (by decide)

/-- C2 counterexample to the claim as stated: the second of two immediate
calls is not rejected and both commit, so the session ends with two
assistant messages, not at most one. -/
theorem C2_counterexample :
    ((twoCallsInterleaved exSt "سؤال أول" "سؤال ثان" exStreamA
        exStreamB).chatHistory.get? 0).map
      (fun s => (s.messages.filter fun msg =>
        msg.sender == Sender.ai).length) = some 2 := by
  decide

/-- C6 (amended): rendering the three dash lines yields the three items
`a`, `b`, `c` in input order, merged into one contiguous block that is
wrapped once in unordered-list markup — and then wrapped a second time in
ordered-list markup, because the later ordered pass re-matches the same
`<li>...</li>` run. -/
theorem C6_render_dash_list :
    markdownToHtml "- a\n- b\n- c" =
      "<ul><ol><li>a</li><li>b</li><li>c</li></ol></ul>" := by
  decide

/-- C6 counterexample to the claim as stated: the output contains two list
wrapper elements (an unordered and an ordered one), not exactly one. -/
theorem C6_counterexample :
    countOcc "<ul>" (markdownToHtml "- a\n- b\n- c") +
      countOcc "<ol>" (markdownToHtml "- a\n- b\n- c") = 2 := by
  decide

/-- C8: migration on load defaults a missing `category` to uncategorized,
keeps a present category, and never alters `id`, `title` or `messages`. -/
theorem C8_migration (l : List StoredSession) :
    (migrate l).length = l.length ∧
    ∀ i s, l.get? i = some s →
      ∃ t, (migrate l).get? i = some t ∧
        t.id = s.id ∧ t.title = s.title ∧ t.messages = s.messages ∧
        (s.category = none → t.category = .uncategorized) ∧
        ∀ c, s.category = some c → t.category = c := by
  refine ⟨by simp [migrate], ?_⟩
  intro i s hs
  refine ⟨migrateSession s, ?_, rfl, rfl, rfl, ?_, ?_⟩
  · unfold migrate
    rw [List.get?_map, hs]
    rfl
  · intro hnone
    simp [migrateSession, hnone]
  · intro c hc
    simp [migrateSession, hc]

/-- C8 witness: a stored record lacking `category` migrates to
uncategorized with every other field kept; one carrying a category keeps
it. -/
theorem C8_witness :
    (∃ t, (migrate exStored).get? 0 = some t ∧
      t.id = 3 ∧ t.title = "قديمة" ∧ t.messages = [userMsg "س"] ∧
      t.category = ChatCategory.uncategorized) ∧
    ∃ t, (migrate exStored).get? 1 = some t ∧
      t.category = ChatCategory.fiqh := by
  obtain ⟨t, ht, h1, h2, h3, h4, -⟩ := (C8_migration exStored).2 0
    { id := 3, title := "قديمة", messages := [userMsg "س"],
      category := none } rfl
  obtain ⟨u, hu, -, -, -, -, h5⟩ := (C8_migration exStored).2 1
    { id := 4, title := "حديثة", messages := [],
      category := some .fiqh } rfl
  exact ⟨⟨t, ht, h1, h2, h3, h4 rfl⟩, u, hu, h5 .fiqh rfl⟩

/- ------------------------------------------------------------------
Sorting and membership lemmas for the descending id-key order.
------------------------------------------------------------------ -/

theorem mem_insertDesc (x a : ChatSession) (l : List ChatSession) :
    a ∈ insertDesc x l ↔ a = x ∨ a ∈ l := by
  induction l with
  | nil => simp [insertDesc]
  | cons y ys ih =>
    unfold insertDesc
    by_cases h : x.id ≤ y.id
    · rw [if_pos h]
      rw [List.mem_cons, ih, List.mem_cons]
      tauto
    · rw [if_neg h]
      simp only [List.mem_cons]

theorem mem_foldl_insertDesc (l acc : List ChatSession) (a : ChatSession) :
    a ∈ l.foldl (fun acc x => insertDesc x acc) acc ↔ a ∈ acc ∨ a ∈ l := by
  induction l generalizing acc with
  | nil => simp
  | cons x xs ih =>
    rw [List.foldl_cons, ih, mem_insertDesc, List.mem_cons]
    tauto

theorem mem_sortDesc (l : List ChatSession) (a : ChatSession) :
    a ∈ sortDesc l ↔ a ∈ l := by
  unfold sortDesc
  rw [mem_foldl_insertDesc]
  simp

theorem pairwise_insertDesc (x : ChatSession) (l : List ChatSession)
    (h : l.Pairwise fun a b => b.id ≤ a.id) :
    (insertDesc x l).Pairwise fun a b => b.id ≤ a.id := by
  induction l with
  | nil => simp [insertDesc]
  | cons y ys ih =>
    obtain ⟨hy, hys⟩ := List.pairwise_cons.mp h
    unfold insertDesc
    by_cases hle : x.id ≤ y.id
    · rw [if_pos hle]
      refine List.pairwise_cons.mpr ⟨?_, ih hys⟩
      intro z hz
      rcases (mem_insertDesc x z ys).mp hz with rfl | hzys
      · exact hle
      · exact hy z hzys
    · rw [if_neg hle]
      refine List.pairwise_cons.mpr ⟨?_, h⟩
      intro z hz
      have hyx : y.id ≤ x.id := Nat.le_of_lt (Nat.lt_of_not_le hle)
      rcases List.mem_cons.mp hz with rfl | hzys
      · exact hyx
      · exact Nat.le_trans (hy z hzys) hyx

theorem pairwise_foldl_insertDesc (l acc : List ChatSession)
    (h : acc.Pairwise fun a b => b.id ≤ a.id) :
    (l.foldl (fun acc x => insertDesc x acc) acc).Pairwise
      fun a b => b.id ≤ a.id := by
  induction l generalizing acc with
  | nil => exact h
  | cons x xs ih =>
    rw [List.foldl_cons]
    exact ih (insertDesc x acc) (pairwise_insertDesc x acc h)

theorem pairwise_sortDesc (l : List ChatSession) :
    (sortDesc l).Pairwise fun a b => b.id ≤ a.id :=
  pairwise_foldl_insertDesc l [] (List.Pairwise.nil)

theorem mostRecentChat_spec (l : List ChatSession) (m : ChatSession)
    (h : mostRecentChat l = some m) :
    m ∈ l ∧ ∀ s ∈ l, s.id ≤ m.id := by
  unfold mostRecentChat at h
  cases hsd : sortDesc l with
  | nil => rw [hsd] at h; cases h
  | cons a rest =>
    rw [hsd] at h
    have ham : a = m := Option.some.inj h
    subst ham
    have hpw := pairwise_sortDesc l
    rw [hsd] at hpw
    obtain ⟨ha, -⟩ := List.pairwise_cons.mp hpw
    constructor
    · rw [← mem_sortDesc, hsd]
      exact List.mem_cons_self a rest
    · intro s hs
      have : s ∈ sortDesc l := (mem_sortDesc l s).mpr hs
      rw [hsd] at this
      rcases List.mem_cons.mp this with rfl | hrest
      · exact Nat.le_refl _
      · exact ha s hrest

/- ------------------------------------------------------------------
Directory invariant (C4) and delete semantics (C5).
------------------------------------------------------------------ -/

theorem hasId_iff (l : List ChatSession) (t : Nat) :
    hasId l t = true ↔ ∃ s ∈ l, s.id = t := by
  unfold hasId
  rw [List.any_eq_true]
  simp

theorem mem_removeFirst (l : List ChatSession) (t : Nat) (s : ChatSession)
    (hs : s ∈ l) (hne : s.id ≠ t) : s ∈ removeFirst l t := by
  induction l with
  | nil => cases hs
  | cons y ys ih =>
    unfold removeFirst
    by_cases hy : y.id = t
    · rw [if_pos hy]
      rcases List.mem_cons.mp hs with rfl | hys
      · exact absurd hy hne
      · exact hys
    · rw [if_neg hy]
      rcases List.mem_cons.mp hs with rfl | hys
      · exact List.mem_cons_self s _
      · exact List.mem_cons_of_mem y (ih hys)

/-- The always-valid-current invariant of the Session Directory (C4). -/
def DirInvariant (st : AppState) : Prop :=
  st.chatHistory ≠ [] ∧
  ∃ cid, st.currentChatId = some cid ∧ ∃ s ∈ st.chatHistory, s.id = cid

theorem createNewChat_spec (st : AppState) (fid : Nat) :
    (createNewChat st fid).chatHistory =
      st.chatHistory ++ [newChatSession fid] ∧
    (createNewChat st fid).currentChatId = some fid ∧
    (createNewChat st fid).hasChatInstance = true := by
  unfold createNewChat loadChat
  rw [if_pos ((hasId_iff _ fid).mpr ⟨newChatSession fid, by simp, rfl⟩)]
  exact ⟨rfl, rfl, rfl⟩

theorem inv_createNewChat (st : AppState) (fid : Nat) :
    DirInvariant (createNewChat st fid) := by
  obtain ⟨h1, h2, -⟩ := createNewChat_spec st fid
  refine ⟨by rw [h1]; simp, fid, h2, ?_⟩
  rw [h1]
  exact ⟨newChatSession fid, by simp, rfl⟩

theorem inv_loadChat (st : AppState) (t : Nat) (h : DirInvariant st) :
    DirInvariant (loadChat st t) := by
  unfold loadChat
  by_cases hh : hasId st.chatHistory t
  · rw [if_pos hh]
    exact ⟨h.1, t, rfl, (hasId_iff _ t).mp hh⟩
  · rw [if_neg hh]
    exact h

theorem handleDeleteChat_absent (st : AppState) (t fid : Nat)
    (hab : hasId st.chatHistory t = false) :
    handleDeleteChat st t fid = st := by
  simp [handleDeleteChat, hab]

theorem handleDeleteChat_notCurrent (st : AppState) (t fid : Nat)
    (hpresent : hasId st.chatHistory t = true)
    (hcur : st.currentChatId ≠ some t) :
    handleDeleteChat st t fid =
      { st with chatHistory := removeFirst st.chatHistory t } := by
  simp [handleDeleteChat, hpresent, hcur]

theorem handleDeleteChat_promote (st : AppState) (t fid : Nat)
    (m : ChatSession)
    (hpresent : hasId st.chatHistory t = true)
    (hcur : st.currentChatId = some t)
    (hm : mostRecentChat (removeFirst st.chatHistory t) = some m) :
    handleDeleteChat st t fid =
      loadChat { st with chatHistory := removeFirst st.chatHistory t }
        m.id := by
  simp [handleDeleteChat, hpresent, hcur, hm]

theorem handleDeleteChat_emptied (st : AppState) (t fid : Nat)
    (hpresent : hasId st.chatHistory t = true)
    (hcur : st.currentChatId = some t)
    (hm : mostRecentChat (removeFirst st.chatHistory t) = none) :
    handleDeleteChat st t fid =
      createNewChat { st with chatHistory := removeFirst st.chatHistory t }
        fid := by
  simp [handleDeleteChat, hpresent, hcur, hm]

theorem inv_handleDeleteChat (st : AppState) (t fid : Nat)
    (h : DirInvariant st) : DirInvariant (handleDeleteChat st t fid) := by
  by_cases hpresent : hasId st.chatHistory t
  · by_cases hcur : st.currentChatId = some t
    · cases hm : mostRecentChat (removeFirst st.chatHistory t) with
      | some m =>
        rw [handleDeleteChat_promote st t fid m hpresent hcur hm]
        obtain ⟨hmem, -⟩ := mostRecentChat_spec _ m hm
        unfold loadChat
        rw [if_pos ((hasId_iff _ m.id).mpr ⟨m, hmem, rfl⟩)]
        exact ⟨List.ne_nil_of_mem hmem, m.id, rfl, m, hmem, rfl⟩
      | none =>
        rw [handleDeleteChat_emptied st t fid hpresent hcur hm]
        exact inv_createNewChat _ fid
    · rw [handleDeleteChat_notCurrent st t fid hpresent hcur]
      obtain ⟨-, cid, hcid, s, hs, hsid⟩ := h
      have hne : s.id ≠ t := by
        intro hst
        exact hcur (by rw [hcid, ← hsid, hst])
      have hmem := mem_removeFirst st.chatHistory t s hs hne
      exact ⟨List.ne_nil_of_mem hmem, cid, hcid, s, hmem, hsid⟩
  · rw [handleDeleteChat_absent st t fid (by simpa using hpresent)]
    exact h

theorem inv_stepOp (st : AppState) (op : DirOp) (h : DirInvariant st) :
    DirInvariant (stepOp st op) := by
  cases op with
  | create fid => exact inv_createNewChat st fid
  | delete t fid => exact inv_handleDeleteChat st t fid h
  | select t => exact inv_loadChat st t h

theorem inv_foldl (ops : List DirOp) (st : AppState) (h : DirInvariant st) :
    DirInvariant (ops.foldl stepOp st) := by
  induction ops generalizing st with
  | nil => exact h
  | cons op rest ih => exact ih (stepOp st op) (inv_stepOp st op h)

theorem loadHistory_some_cons (l : List StoredSession) (fid : Nat)
    (s : ChatSession) (rest : List ChatSession)
    (hm : migrate l = s :: rest) :
    loadHistory (some l) fid =
      loadChat { chatHistory := migrate l, currentChatId := none,
                 hasChatInstance := false } s.id := by
  simp [loadHistory, hm]

theorem loadHistory_some_nil (l : List StoredSession) (fid : Nat)
    (hm : migrate l = []) :
    loadHistory (some l) fid =
      createNewChat { chatHistory := migrate l, currentChatId := none,
                      hasChatInstance := false } fid := by
  simp [loadHistory, hm]

theorem inv_loadHistory (stored : Option (List StoredSession)) (fid : Nat) :
    DirInvariant (loadHistory stored fid) := by
  cases stored with
  | none => exact inv_createNewChat _ fid
  | some l =>
    cases hm : migrate l with
    | nil =>
      rw [loadHistory_some_nil l fid hm]
      exact inv_createNewChat _ fid
    | cons s rest =>
      rw [loadHistory_some_cons l fid s rest hm]
      have hmem : s ∈ migrate l := by
        rw [hm]
        exact List.mem_cons_self s rest
      unfold loadChat
      rw [if_pos ((hasId_iff _ s.id).mpr ⟨s, hmem, rfl⟩)]
      refine ⟨?_, s.id, rfl, s, hmem, rfl⟩
      show migrate l ≠ []
      rw [hm]
      simp

/-- C4: starting from a loaded collection, after any sequence of create,
delete and select operations the collection is non-empty and exactly one
current id exists, naming a session of the collection — in particular no
delete leaves the collection empty. -/
theorem C4_directory_invariant (stored : Option (List StoredSession))
    (freshId : Nat) (ops : List DirOp) :
    (ops.foldl stepOp (loadHistory stored freshId)).chatHistory ≠ [] ∧
    ∃ cid,
      (ops.foldl stepOp (loadHistory stored freshId)).currentChatId =
        some cid ∧
      ∃ s ∈ (ops.foldl stepOp (loadHistory stored freshId)).chatHistory,
        s.id = cid :=
  inv_foldl ops (loadHistory stored freshId) (inv_loadHistory stored freshId)

/-- C5: `delete` removes the session with the given id and is a silent
no-op when absent; when the deleted session was current and sessions
remain, the remaining session with the greatest id-ordering key becomes
current; when none remain, a fresh session is created and becomes
current. -/
theorem C5_delete_semantics (st : AppState) (t freshId : Nat) :
    ((∀ s ∈ st.chatHistory, s.id ≠ t) →
       handleDeleteChat st t freshId = st) ∧
    ∀ s₀ ∈ st.chatHistory, s₀.id = t →
      (st.currentChatId ≠ some t →
         handleDeleteChat st t freshId =
           { st with chatHistory := removeFirst st.chatHistory t }) ∧
      (st.currentChatId = some t →
         (removeFirst st.chatHistory t = [] →
            (handleDeleteChat st t freshId).chatHistory =
              removeFirst st.chatHistory t ++ [newChatSession freshId] ∧
            (handleDeleteChat st t freshId).currentChatId = some freshId) ∧
         ∀ m, mostRecentChat (removeFirst st.chatHistory t) = some m →
           (handleDeleteChat st t freshId).chatHistory =
             removeFirst st.chatHistory t ∧
           (handleDeleteChat st t freshId).currentChatId = some m.id ∧
           m ∈ removeFirst st.chatHistory t ∧
           ∀ s ∈ removeFirst st.chatHistory t, s.id ≤ m.id) := by
  constructor
  · intro habs
    apply handleDeleteChat_absent
    rw [Bool.eq_false_iff]
    intro hh
    obtain ⟨s, hs, hsid⟩ := (hasId_iff _ t).mp hh
    exact habs s hs hsid
  · intro s₀ hs₀ hs₀id
    have hpresent : hasId st.chatHistory t = true :=
      (hasId_iff _ t).mpr ⟨s₀, hs₀, hs₀id⟩
    refine ⟨?_, ?_⟩
    · intro hcur
      exact handleDeleteChat_notCurrent st t freshId hpresent hcur
    · intro hcur
      constructor
      · intro hrem
        have hm : mostRecentChat (removeFirst st.chatHistory t) = none := by
          rw [hrem]
          rfl
        rw [handleDeleteChat_emptied st t freshId hpresent hcur hm]
        obtain ⟨h1, h2, -⟩ := createNewChat_spec
          { st with chatHistory := removeFirst st.chatHistory t } freshId
        exact ⟨h1, h2⟩
      · intro m hm
        rw [handleDeleteChat_promote st t freshId m hpresent hcur hm]
        obtain ⟨hmem, hmax⟩ := mostRecentChat_spec _ m hm
        unfold loadChat
        rw [if_pos ((hasId_iff _ m.id).mpr ⟨m, hmem, rfl⟩)]
        exact ⟨rfl, rfl, hmem, hmax⟩

/-- C5 witness: deleting an absent id is a no-op; deleting the current
older session promotes the one with the greatest key; deleting the only
session synthesizes a fresh current one. -/
theorem C5_witness :
    handleDeleteChat exStTwo 99 7 = exStTwo ∧
    ((handleDeleteChat exStTwo 5 7).chatHistory =
       removeFirst exStTwo.chatHistory 5 ∧
     (handleDeleteChat exStTwo 5 7).currentChatId = some 9) ∧
    ((handleDeleteChat exSt 1 7).chatHistory =
       removeFirst exSt.chatHistory 1 ++ [newChatSession 7] ∧
     (handleDeleteChat exSt 1 7).currentChatId = some 7) := by
  refine ⟨(C5_delete_semantics exStTwo 99 7).1 (by decide), ?_, ?_⟩
  · have h := (((C5_delete_semantics exStTwo 5 7).2
      { id := 5, title := "أ", messages := [], category := .uncategorized }
      (by decide) rfl).2 rfl).2
      { id := 9, title := "ب", messages := [], category := .uncategorized }
      (by decide)
    exact ⟨h.1, h.2.1⟩
  · exact (((C5_delete_semantics exSt 1 7).2 (newChatSession 1)
      (by decide) rfl).2 rfl).1 (by decide)

/- ------------------------------------------------------------------
Grouping lemmas (C7): the `reduce` accumulator holds exactly the
categories in first-appearance order, each with its sessions in input
order.
------------------------------------------------------------------ -/

theorem mem_foldl_dedup (l : List ChatCategory) (acc : List ChatCategory)
    (c : ChatCategory) :
    c ∈ l.foldl (fun acc c => if c ∈ acc then acc else acc ++ [c]) acc ↔
      c ∈ acc ∨ c ∈ l := by
  induction l generalizing acc with
  | nil => simp
  | cons x xs ih =>
    rw [List.foldl_cons, ih]
    by_cases hx : x ∈ acc
    · rw [if_pos hx]
      simp only [List.mem_cons]
      constructor
      · tauto
      · rintro (h | rfl | h) <;> tauto
    · rw [if_neg hx]
      simp only [List.mem_append, List.mem_singleton, List.mem_cons]
      tauto

theorem mem_dedupFirst (l : List ChatCategory) (c : ChatCategory) :
    c ∈ dedupFirst l ↔ c ∈ l := by
  unfold dedupFirst
  rw [mem_foldl_dedup]
  simp

theorem dedupFirst_append_singleton (l : List ChatCategory)
    (c : ChatCategory) :
    dedupFirst (l ++ [c]) =
      if c ∈ l then dedupFirst l else dedupFirst l ++ [c] := by
  have h1 : dedupFirst (l ++ [c]) =
      if c ∈ dedupFirst l then dedupFirst l else dedupFirst l ++ [c] := by
    unfold dedupFirst
    rw [List.foldl_append]
    rfl
  rw [h1]
  by_cases hc : c ∈ l
  · rw [if_pos ((mem_dedupFirst l c).mpr hc), if_pos hc]
  · rw [if_neg (fun hh => hc ((mem_dedupFirst l c).mp hh)), if_neg hc]

theorem groupsOf_fst (h : List ChatSession) :
    (groupsOf h).map Prod.fst = dedupFirst (h.map fun s => s.category) := by
  unfold groupsOf
  rw [List.map_map]
  have hfst : (Prod.fst ∘ fun c : ChatCategory =>
      (c, h.filter fun s => s.category = c)) = id := by
    funext c
    rfl
  rw [hfst, List.map_id]

theorem addToGroups_groupsOf (seen : List ChatSession) (s : ChatSession) :
    addToGroups (groupsOf seen) s = groupsOf (seen ++ [s]) := by
  have hcats : (seen ++ [s]).map (fun x => x.category) =
      seen.map (fun x => x.category) ++ [s.category] := by simp
  unfold addToGroups
  by_cases hmem : s.category ∈ seen.map (fun x => x.category)
  · have hmem' : s.category ∈ dedupFirst (seen.map fun x => x.category) :=
      (mem_dedupFirst _ _).mpr hmem
    have hany : (groupsOf seen).any (fun g => g.1 = s.category) = true := by
      rw [List.any_eq_true]
      refine ⟨(s.category, seen.filter fun x => x.category = s.category),
        ?_, by simp⟩
      unfold groupsOf
      exact List.mem_map.mpr ⟨s.category, hmem', rfl⟩
    rw [hany]
    simp only [if_true]
    show (groupsOf seen).map _ = _
    unfold groupsOf
    rw [hcats, dedupFirst_append_singleton, if_pos hmem, List.map_map]
    apply List.map_congr_left
    intro c hc
    simp only [Function.comp]
    by_cases hcs : c = s.category
    · subst hcs
      rw [if_pos rfl]
      rw [List.filter_append]
      simp
    · rw [if_neg hcs]
      rw [List.filter_append]
      have : [s].filter (fun x => decide (x.category = c)) = [] := by
        simp only [List.filter]
        rw [decide_eq_false (fun hh => hcs (hh.symm))]
      rw [this, List.append_nil]
  · have hany : (groupsOf seen).any (fun g => g.1 = s.category) = false := by
      rw [List.any_eq_false]
      intro g hg
      unfold groupsOf at hg
      obtain ⟨c, hc, rfl⟩ := List.mem_map.mp hg
      simp only [decide_eq_true_eq]
      intro hcs
      exact hmem (by rw [← hcs]; exact (mem_dedupFirst _ _).mp hc)
    rw [hany]
    simp only [Bool.false_eq_true, if_false]
    show groupsOf seen ++ [(s.category, [s])] = _
    unfold groupsOf
    rw [hcats, dedupFirst_append_singleton, if_neg hmem, List.map_append]
    congr 1
    · apply List.map_congr_left
      intro c hc
      have hne : s.category ≠ c := by
        intro hh
        exact hmem (by rw [hh]; exact (mem_dedupFirst _ _).mp hc)
      rw [List.filter_append]
      have : [s].filter (fun x => decide (x.category = c)) = [] := by
        simp only [List.filter]
        rw [decide_eq_false hne]
      rw [this, List.append_nil]
    · simp only [List.map_cons, List.map_nil]
      rw [List.filter_append]
      have h0 : seen.filter (fun x => decide (x.category = s.category)) =
          [] := by
        rw [List.filter_eq_nil]
        intro a ha
        simp only [decide_eq_true_eq]
        intro hcs
        exact hmem (List.mem_map.mpr ⟨a, ha, hcs⟩)
      rw [h0]
      simp

theorem foldl_addToGroups (rest seen : List ChatSession) :
    rest.foldl addToGroups (groupsOf seen) = groupsOf (seen ++ rest) := by
  induction rest generalizing seen with
  | nil => rw [List.append_nil]; rfl
  | cons s rest' ih =>
    rw [List.foldl_cons, addToGroups_groupsOf, ih]
    congr 1
    simp

theorem groups_eq (h : List ChatSession) :
    h.foldl addToGroups [] = groupsOf h := by
  have hh := foldl_addToGroups h []
  simpa [groupsOf, dedupFirst] using hh

/-- C7 (amended): the grouped history view partitions the sessions by
category, orders each partition by descending id key (newest first) and
omits empty categories — but the groups are iterated in the order in which
each category first appears in the collection (object-key insertion
order), not in the fixed declared category order. -/
theorem C7_listGrouped (h : List ChatSession) :
    (listGrouped h).map Prod.fst = dedupFirst (h.map fun s => s.category) ∧
    ∀ p ∈ listGrouped h,
      p.2 = sortDesc (h.filter fun s => s.category = p.1) ∧
      p.2 ≠ [] ∧
      p.2.Pairwise fun a b => b.id ≤ a.id := by
  unfold listGrouped
  rw [groups_eq]
  constructor
  · rw [List.map_map]
    have hfst : (Prod.fst ∘ fun g : ChatCategory × List ChatSession =>
        (g.1, sortDesc g.2)) = Prod.fst := by
      funext g
      rfl
    rw [hfst, groupsOf_fst]
  · intro p hp
    obtain ⟨g, hg, rfl⟩ := List.mem_map.mp hp
    unfold groupsOf at hg
    obtain ⟨c, hc, rfl⟩ := List.mem_map.mp hg
    refine ⟨rfl, ?_, pairwise_sortDesc _⟩
    have hcath : c ∈ h.map fun s => s.category := (mem_dedupFirst _ _).mp hc
    obtain ⟨x, hx, hxc⟩ := List.mem_map.mp hcath
    have hxf : x ∈ h.filter fun s => s.category = c := by
      rw [List.mem_filter]
      exact ⟨hx, by simp [hxc]⟩
    have : x ∈ sortDesc (h.filter fun s => s.category = c) :=
      (mem_sortDesc _ x).mpr hxf
    exact List.ne_nil_of_mem this

/-- C7 witness: the partition, ordering and non-emptiness facts at the
two-session example. -/
theorem C7_witness :
    (listGrouped exGroupHistory).map Prod.fst =
      dedupFirst (exGroupHistory.map fun s => s.category) ∧
    ((ChatCategory.fiqh,
        [{ id := 2, title := "أ", messages := [],
           category := ChatCategory.fiqh }]) ∈ listGrouped exGroupHistory ∧
     [({ id := 2, title := "أ", messages := [],
         category := ChatCategory.fiqh } : ChatSession)] =
       sortDesc (exGroupHistory.filter fun s =>
         s.category = ChatCategory.fiqh)) := by
  have h := C7_listGrouped exGroupHistory
  have hmem : (ChatCategory.fiqh,
      [({ id := 2, title := "أ", messages := [],
          category := ChatCategory.fiqh } : ChatSession)]) ∈
      listGrouped exGroupHistory := by decide
  exact ⟨h.1, hmem, (h.2 _ hmem).1⟩

/-- C7 counterexample to the claim as stated: with the Jurisprudence
session stored before the Creed session, the groups are iterated
Jurisprudence first — not in the declared category order. -/
theorem C7_counterexample :
    (listGrouped exGroupHistory).map Prod.fst =
      [ChatCategory.fiqh, ChatCategory.aqeedah] ∧
    isOrderedSub ((listGrouped exGroupHistory).map Prod.fst)
      CHAT_CATEGORIES = false := by
  decide
